import Mathlib

/-!
Verification of the micropen-maintenance-info-bot pipeline.

The bot's single `run` function (a Cloudflare Worker scheduled job) is
shallowly embedded here.  JavaScript strings are modelled as `List Char`
(`JStr`), the single key-value pair used for dedup persistence as
`Option JStr`, the RSS feed as a list of `FeedEntry` records, and the
per-entry detail pages as a function from link to a `DetailPage` record
listing the text contents of the CSS-class-matched elements.  Network
effects (HEAD probes succeeding, the feed contents, page contents) are
inputs of the run; observable effects (KV access, composed and posted
messages, logs) are fields of the output record.
-/

namespace MicropenBot

/-- JavaScript strings are modelled as lists of characters. -/
abbrev JStr := List Char

/-- Convenience: build a `JStr` from a Lean string literal. -/
def js (s : String) : JStr := s.toList

/-- Model of JavaScript `s.split(sep)` for a one-character separator:
always returns at least one piece, empty pieces included. -/
def jsSplit (c : Char) : JStr → List JStr
  | [] => [[]]
  | x :: xs =>
    match jsSplit c xs with
    | [] => [[]]
    | h :: t => if x = c then [] :: h :: t else (x :: h) :: t

/-- Model of JavaScript `arr.join(sep)` for a one-character separator. -/
def jsJoin (c : Char) : List JStr → JStr
  | [] => []
  | [x] => x
  | x :: y :: t => x ++ c :: jsJoin c (y :: t)

/-- Helper for `jsIncludes`: does the haystack start with the needle? -/
def jsStartsWith : JStr → JStr → Bool
  | [], _ => true
  | _ :: _, [] => false
  | a :: as, b :: bs => a = b && jsStartsWith as bs

/-- Helper recursion for `jsIncludes` over the haystack. -/
def jsIncludesAux (needle : JStr) : JStr → Bool
  | [] => jsStartsWith needle []
  | c :: rest => jsStartsWith needle (c :: rest) || jsIncludesAux needle rest

/-- Model of JavaScript `s.includes(needle)` (case-sensitive substring). -/
def jsIncludes (s needle : JStr) : Bool := jsIncludesAux needle s

/-- Entry of the parsed RSS feed (src/src/types.d.ts); only the fields the
program reads are modelled, `published` being epoch milliseconds. -/
structure FeedEntry where
  title : JStr
  description : JStr
  link : JStr
  published : Int
  deriving DecidableEq, Repr

/-- Environment bindings consumed by `run` (src/unnamed/part_000 line 27). -/
structure Env where
  SERVICE_HOST : JStr
  STATUS_PAGE_HOST : JStr
  PROCESSED_ENTRIES_KV_KEY : JStr
  SERVICE_NAME : JStr
  PLATFORM_NAME : JStr
  MISSKEY_API_TOKEN : JStr
  TEST_MODE : Bool
  deriving Repr

/-- A fetched entry detail page, reduced to what the code inspects: the
text contents of the elements of each of the three severity marker CSS
classes and of the `prose-sm` class, in document order. -/
structure DetailPage where
  blueTexts : List JStr
  yellowTexts : List JStr
  redTexts : List JStr
  proseTexts : List JStr
  deriving Repr

/-- Inputs of one run: outcomes of the two HEAD probes, the current value
stored under the dedup key, the parsed feed, the detail page reachable at
each link, and the clock value `Date.now()`. -/
structure RunInput where
  serviceOk : Bool
  statusOk : Bool
  store : Option JStr
  feed : List FeedEntry
  pages : JStr → DetailPage
  now : Int

/-- Observable outcome of one run. -/
structure RunOutput where
  store : Option JStr
  kvRead : Bool
  kvWritten : Bool
  feedFetched : Bool
  processedAfter : List JStr
  toProcess : List FeedEntry
  composed : List JStr
  posted : List JStr
  returned : Option (List JStr)
  logs : List JStr

/-- STATUS_PAGE_DOCUMENT_ROOT = STATUS_PAGE_HOST + '/' (line 29). -/
def statusPageDocumentRoot (env : Env) : JStr := env.STATUS_PAGE_HOST ++ js "/"

/-- Dedup key of an entry: `entry.link.split('/').pop()` interpolated with
`entry.published` around a dash (lines 72-73). -/
def entryUniqueKey (e : FeedEntry) : JStr :=
  (jsSplit '/' e.link).getLastD [] ++ '-' :: js (toString e.published)

/-- Title relevance test (line 68). -/
def relevantTitle (env : Env) (e : FeedEntry) : Bool :=
  jsIncludes e.title env.PLATFORM_NAME || jsIncludes e.title env.SERVICE_NAME

/-- One step of the `feedEntries.items.filter` callback (lines 61-93).
`acc.1` is the `newProcessedEntries` array (aliasing `processedEntries`,
line 59) as mutated so far; `acc.2` collects the entries for which the
callback returned `true`. -/
def processEntry (env : Env) (now : Int) (acc : List JStr × List FeedEntry)
    (e : FeedEntry) : List JStr × List FeedEntry :=
  if e.link = statusPageDocumentRoot env then acc
  else if relevantTitle env e then
    if env.TEST_MODE then (acc.1, acc.2 ++ [e])
    else if entryUniqueKey e ∈ acc.1 then acc
    else if e.published < now - 3600000 then (acc.1 ++ [entryUniqueKey e], acc.2)
    else (acc.1 ++ [entryUniqueKey e], acc.2 ++ [e])
  else acc

/-- Sequential evaluation of the filter callback over the feed. -/
def runFilter (env : Env) (now : Int) (acc : List JStr × List FeedEntry) :
    List FeedEntry → List JStr × List FeedEntry
  | [] => acc
  | e :: rest => runFilter env now (processEntry env now acc e) rest

/-- Reading the dedup store: `processedEntryList?.split(',') ?? []`
(lines 53-54). -/
def readProcessed : Option JStr → List JStr
  | some s => jsSplit ',' s
  | none => []

/-- Writing the dedup store back: put the comma-join when non-empty,
delete the key when empty (lines 95-101). -/
def writeProcessed (l : List JStr) : Option JStr :=
  if l.length > 0 then some (jsJoin ',' l) else none

/-- First severity marker element of a detail page:
`blue[0] || yellow[0] || red[0]`, then `?.textContent` (lines 110-111).
`none` models the element being absent (`entryType === undefined`). -/
def markerText (p : DetailPage) : Option JStr :=
  match p.blueTexts with
  | b :: _ => some b
  | [] =>
    match p.yellowTexts with
    | y :: _ => some y
    | [] =>
      match p.redTexts with
      | r :: _ => some r
      | [] => none

/-- Category label computation (lines 113-126).  `none` as input is the
absent marker; `none` as output models `entryTypeJp` being left
`undefined` because the `switch` has no default branch.  Note the JS
test `if (!entryType)` also treats an empty marker text as absent. -/
def entryTypeJp (entryType : Option JStr) : Option JStr :=
  match entryType with
  | none => some (js "お知らせ")
  | some t =>
    if t = [] then some (js "お知らせ")
    else if t = js "Downtime" ∨ t = js "Degraded" then some (js "障害情報")
    else if t = js "Maintenance" then some (js "メンテナンス情報")
    else none

/-- JavaScript template-literal interpolation of a possibly-`undefined`
string value. -/
def jsInterp : Option JStr → JStr
  | none => js "undefined"
  | some s => s

/-- Description extraction: text of the first `prose-sm` element, with a
fallback when the element is absent or its text is empty (line 128). -/
def descriptionOf (p : DetailPage) : JStr :=
  match p.proseTexts with
  | d :: _ => if d = [] then js "詳細はリンク先をご確認ください。" else d
  | [] => js "詳細はリンク先をご確認ください。"

/-- The four-line message template of line 129. -/
def messageTemplate (label title description link : JStr) : JStr :=
  js "【" ++ label ++ js "】\n" ++ title ++ js "\n" ++ description ++ js "\n" ++ link

/-- Message composed for one entry from its detail page (lines 110-129). -/
def composeMessage (e : FeedEntry) (p : DetailPage) : JStr :=
  messageTemplate (jsInterp (entryTypeJp (markerText p))) e.title (descriptionOf p) e.link

/-- The `newProcessedEntries` array at the end of the filter pass. -/
def newProcessedOf (env : Env) (inp : RunInput) : List JStr :=
  (runFilter env inp.now (readProcessed inp.store, []) inp.feed).1

/-- The `feedEntriesToProcess` list produced by the filter pass. -/
def toProcessOf (env : Env) (inp : RunInput) : List FeedEntry :=
  (runFilter env inp.now (readProcessed inp.store, []) inp.feed).2

/-- Messages composed for the entries to process (lines 103-129). -/
def messagesOf (env : Env) (inp : RunInput) : List JStr :=
  (toProcessOf env inp).map fun e => composeMessage e (inp.pages e.link)

/-- The whole `run` function (src/unnamed/part_000 lines 26-142): abort
with a log line if either HEAD probe fails; otherwise read the dedup
store, run the filter pass, write the store back, compose the messages,
and either post them (returning the API results, not modelled) or, in
TEST_MODE, return them without posting. -/
def run (env : Env) (inp : RunInput) : RunOutput :=
  if inp.serviceOk = false then
    { store := inp.store, kvRead := false, kvWritten := false, feedFetched := false,
      processedAfter := [], toProcess := [], composed := [], posted := [],
      returned := none,
      logs := [env.SERVICE_NAME ++ js "に接続できませんでした。"] }
  else if inp.statusOk = false then
    { store := inp.store, kvRead := false, kvWritten := false, feedFetched := false,
      processedAfter := [], toProcess := [], composed := [], posted := [],
      returned := none,
      logs := [js "ステータスページに接続できませんでした。"] }
  else
    { store := writeProcessed (newProcessedOf env inp),
      kvRead := true, kvWritten := true, feedFetched := true,
      processedAfter := newProcessedOf env inp,
      toProcess := toProcessOf env inp,
      composed := messagesOf env inp,
      posted := if env.TEST_MODE then [] else messagesOf env inp,
      returned := if env.TEST_MODE then some (messagesOf env inp) else none,
      logs := [] }

/-- Boolean form of the two always-on exclusions (sentinel link and title
relevance); used to characterise the TEST_MODE filter pass. -/
def passesBasicFilters (env : Env) (e : FeedEntry) : Bool :=
  decide (¬ e.link = statusPageDocumentRoot env) && relevantTitle env e

/-- Modelled from the spec: the amended notification rule, written as a
direct recursion over the feed.  An entry is notified exactly when its
link is not the document root, its title is relevant, its key is not in
the processed list as accumulated when the entry is examined, and its
timestamp is within one hour of `now`; the accumulated list grows by the
key of every entry passing the first three checks. -/
def notifiedSpecRec (env : Env) (now : Int) (proc : List JStr) :
    List FeedEntry → List FeedEntry
  | [] => []
  | e :: rest =>
    if e.link ≠ statusPageDocumentRoot env ∧ relevantTitle env e = true ∧
        entryUniqueKey e ∉ proc then
      if now - 3600000 ≤ e.published then
        e :: notifiedSpecRec env now (proc ++ [entryUniqueKey e]) rest
      else
        notifiedSpecRec env now (proc ++ [entryUniqueKey e]) rest
    else
      notifiedSpecRec env now proc rest

/-- Store contents reachable by iterating `run` from the initial state in
which the dedup key is absent. -/
inductive ReachableStore : Option JStr → Prop
  | init : ReachableStore none
  | step (env : Env) (inp : RunInput) :
      ReachableStore inp.store → ReachableStore (run env inp).store

/-- Concrete environment used for witnesses and counterexamples. -/
def envA : Env :=
  { SERVICE_HOST := js "https://sv.example"
    STATUS_PAGE_HOST := js "https://sp.example"
    PROCESSED_ENTRIES_KV_KEY := js "processed-entries"
    SERVICE_NAME := js "Acme"
    PLATFORM_NAME := js "AcmePlatform"
    MISSKEY_API_TOKEN := js "token"
    TEST_MODE := false }

/-- The concrete environment with TEST_MODE enabled. -/
def envT : Env := { envA with TEST_MODE := true }

/-- A detail page with no marker elements and no prose element. -/
def pageEmpty : DetailPage := ⟨[], [], [], []⟩

/-- A detail page whose first (blue) marker carries an unanticipated text. -/
def pageOperational : DetailPage := ⟨[js "Operational"], [], [], [js "desc"]⟩

/-- A detail page whose first (blue) marker says Downtime. -/
def pageDowntime : DetailPage := ⟨[js "Downtime"], [], [], [js "desc"]⟩

/-- A relevant, recent feed entry for incident 42. -/
def entry42 : FeedEntry :=
  { title := js "Acme Maintenance", description := js "d1"
    link := js "https://sp.example/incidents/42", published := 0 }

/-- A second entry with the same link and timestamp (hence the same dedup
key) but a different description. -/
def entry42b : FeedEntry := { entry42 with description := js "d2" }

/-- An entry whose link is the status page document root. -/
def entryRoot : FeedEntry :=
  { title := js "Acme Maintenance", description := js "d"
    link := js "https://sp.example/", published := 0 }

/-- A relevant entry published two hours before the witness clock. -/
def entryOld : FeedEntry :=
  { title := js "Acme Maintenance", description := js "d"
    link := js "https://sp.example/incidents/43", published := 0 }

/-- A relevant, recent entry whose link's last path segment contains a
comma, so its dedup key contains a comma. -/
def entryComma : FeedEntry :=
  { title := js "Acme Maintenance", description := js "d"
    link := js "https://sp.example/incidents/4,2", published := 0 }

/-- Run input with a failing service probe. -/
def inpFail : RunInput :=
  { serviceOk := false, statusOk := true, store := some (js "x-1")
    feed := [entry42], pages := fun _ => pageEmpty, now := 0 }

/-- Run input whose feed holds two distinct entries sharing one dedup key. -/
def inpC1 : RunInput :=
  { serviceOk := true, statusOk := true, store := none
    feed := [entry42, entry42b], pages := fun _ => pageEmpty, now := 0 }

/-- First run over the comma-key feed. -/
def inpC2a : RunInput :=
  { serviceOk := true, statusOk := true, store := none
    feed := [entryComma], pages := fun _ => pageEmpty, now := 0 }

/-- Second run over the identical comma-key feed, reading back the store
the first run wrote. -/
def inpC2b : RunInput := { inpC2a with store := (run envA inpC2a).store }

/-- First idempotence-witness run. -/
def inpC2w : RunInput :=
  { serviceOk := true, statusOk := true, store := none
    feed := [entry42], pages := fun _ => pageEmpty, now := 0 }

/-- Second idempotence-witness run, reading back the first run's store. -/
def inpC2w2 : RunInput := { inpC2w with store := (run envA inpC2w).store }

/-- Run input for the empty-feed reachable-store witness. -/
def inpNone : RunInput :=
  { serviceOk := true, statusOk := true, store := none
    feed := [], pages := fun _ => pageEmpty, now := 0 }

/-- Run input whose detail page carries the unanticipated marker text. -/
def inpC4 : RunInput :=
  { serviceOk := true, statusOk := true, store := none
    feed := [entry42], pages := fun _ => pageOperational, now := 0 }

/-- Run input whose single feed entry links to the document root. -/
def inpC5 : RunInput :=
  { serviceOk := true, statusOk := true, store := none
    feed := [entryRoot], pages := fun _ => pageEmpty, now := 0 }

/-- Run input observing `entryOld` two hours after publication. -/
def inpC6 : RunInput :=
  { serviceOk := true, statusOk := true, store := none
    feed := [entryOld], pages := fun _ => pageEmpty, now := 7200000 }

/-- Run input for the within-run dedup witness. -/
def inpC9 : RunInput :=
  { serviceOk := true, statusOk := true, store := some (js "41-0")
    feed := [entry42, entry42b], pages := fun _ => pageEmpty, now := 0 }

/-- Run input for the TEST_MODE witness: the entry is both already seen
and too old, yet must still be included. -/
def inpC10 : RunInput :=
  { serviceOk := true, statusOk := true, store := some (js "42-0")
    feed := [entry42], pages := fun _ => pageEmpty, now := 7200000 }

theorem jsSplit_cons_of_eq {c x : Char} {xs : JStr} {hd : JStr} {tl : List JStr}
    (h : jsSplit c xs = hd :: tl) :
    jsSplit c (x :: xs) = if x = c then [] :: hd :: tl else (x :: hd) :: tl := by
  unfold jsSplit
  rw [h]

theorem jsSplit_ne_nil (c : Char) (s : JStr) : jsSplit c s ≠ [] := by
  cases s with
  | nil => simp [jsSplit]
  | cons x xs =>
    cases h : jsSplit c xs with
    | nil =>
      unfold jsSplit
      rw [h]
      simp
    | cons hd tl =>
      rw [jsSplit_cons_of_eq h]
      by_cases hxc : x = c <;> simp [hxc]

theorem jsJoin_two (c : Char) (x y : JStr) (t : List JStr) :
    jsJoin c (x :: y :: t) = x ++ c :: jsJoin c (y :: t) := rfl

theorem jsJoin_jsSplit (c : Char) (s : JStr) : jsJoin c (jsSplit c s) = s := by
  induction s with
  | nil => rfl
  | cons x xs ih =>
    cases h : jsSplit c xs with
    | nil => exact absurd h (jsSplit_ne_nil c xs)
    | cons hd tl =>
      rw [h] at ih
      rw [jsSplit_cons_of_eq h]
      by_cases hxc : x = c
      · rw [if_pos hxc, jsJoin_two, hxc, List.nil_append, ih]
      · rw [if_neg hxc]
        cases tl with
        | nil =>
          show x :: hd = x :: xs
          rw [show jsJoin c [hd] = hd from rfl] at ih
          rw [ih]
        | cons z t =>
          rw [jsJoin_two] at ih
          rw [jsJoin_two, List.cons_append, ih]

theorem jsSplit_pieces_no_sep (c : Char) (s : JStr) :
    ∀ p ∈ jsSplit c s, c ∉ p := by
  induction s with
  | nil => simp [jsSplit]
  | cons x xs ih =>
    cases h : jsSplit c xs with
    | nil => exact absurd h (jsSplit_ne_nil c xs)
    | cons hd tl =>
      rw [h] at ih
      rw [jsSplit_cons_of_eq h]
      by_cases hxc : x = c
      · rw [if_pos hxc]
        intro p hp
        rcases List.mem_cons.mp hp with h1 | h1
        · simp [h1]
        · exact ih p h1
      · rw [if_neg hxc]
        intro p hp
        rcases List.mem_cons.mp hp with h1 | h1
        · subst h1
          intro hc
          rcases List.mem_cons.mp hc with h2 | h2
          · exact hxc h2.symm
          · exact ih hd (by simp) h2
        · exact ih p (by simp [h1])

theorem jsSplit_of_no_sep {c : Char} {s : JStr} (h : c ∉ s) :
    jsSplit c s = [s] := by
  induction s with
  | nil => simp [jsSplit]
  | cons x xs ih =>
    have hx : ¬ x = c := fun hh => h (by simp [hh])
    have hxs : c ∉ xs := fun hh => h (by simp [hh])
    rw [jsSplit_cons_of_eq (ih hxs), if_neg hx]

theorem jsSplit_append_sep {c : Char} {x : JStr} (r : JStr) (h : c ∉ x) :
    jsSplit c (x ++ c :: r) = x :: jsSplit c r := by
  induction x with
  | nil =>
    cases hr : jsSplit c r with
    | nil => exact absurd hr (jsSplit_ne_nil c r)
    | cons hd tl =>
      rw [List.nil_append, jsSplit_cons_of_eq hr, if_pos rfl]
  | cons a as ih =>
    have ha : ¬ a = c := fun hh => h (by simp [hh])
    have has : c ∉ as := fun hh => h (by simp [hh])
    rw [List.cons_append, jsSplit_cons_of_eq (ih has), if_neg ha]

theorem jsSplit_jsJoin {c : Char} {l : List JStr} (hne : l ≠ [])
    (hfree : ∀ p ∈ l, c ∉ p) : jsSplit c (jsJoin c l) = l := by
  induction l with
  | nil => exact absurd rfl hne
  | cons x xs ih =>
    cases xs with
    | nil =>
      simp only [jsJoin]
      exact jsSplit_of_no_sep (hfree x (by simp))
    | cons y t =>
      have hx : c ∉ x := hfree x (by simp)
      have hrest : ∀ p ∈ y :: t, c ∉ p := fun p hp => hfree p (by simp [hp])
      simp only [jsJoin]
      rw [jsSplit_append_sep _ hx, ih (by simp) hrest]

theorem jsJoin_eq_nil {c : Char} {l : List JStr} (h : jsJoin c l = []) :
    l = [] ∨ l = [[]] := by
  match l with
  | [] => exact Or.inl rfl
  | [x] => simp [jsJoin] at h; simp [h]
  | x :: y :: t => simp [jsJoin] at h

theorem entryUniqueKey_ne_nil (e : FeedEntry) : entryUniqueKey e ≠ [] := by
  unfold entryUniqueKey
  intro h
  have := List.append_eq_nil.mp h
  exact absurd this.2 (by simp)

theorem processEntry_fst_cases (env : Env) (now : Int)
    (acc : List JStr × List FeedEntry) (e : FeedEntry) :
    (processEntry env now acc e).1 = acc.1 ∨
      ((processEntry env now acc e).1 = acc.1 ++ [entryUniqueKey e] ∧
        entryUniqueKey e ∉ acc.1 ∧ env.TEST_MODE = false ∧
        e.link ≠ statusPageDocumentRoot env ∧ relevantTitle env e = true) := by
  unfold processEntry
  split_ifs <;> simp_all

theorem processEntry_snd_cases (env : Env) (now : Int)
    (acc : List JStr × List FeedEntry) (e : FeedEntry) :
    (processEntry env now acc e).2 = acc.2 ∨
      ((processEntry env now acc e).2 = acc.2 ++ [e] ∧
        e.link ≠ statusPageDocumentRoot env ∧ relevantTitle env e = true) := by
  unfold processEntry
  split_ifs <;> simp_all

theorem processEntry_root (env : Env) (now : Int)
    (acc : List JStr × List FeedEntry) {e : FeedEntry}
    (h : e.link = statusPageDocumentRoot env) :
    processEntry env now acc e = acc := by
  unfold processEntry
  split_ifs <;> simp_all

theorem processEntry_irrelevant (env : Env) (now : Int)
    (acc : List JStr × List FeedEntry) {e : FeedEntry}
    (h : relevantTitle env e = false) :
    processEntry env now acc e = acc := by
  unfold processEntry
  split_ifs <;> simp_all

theorem processEntry_seen (env : Env) (now : Int)
    (acc : List JStr × List FeedEntry) {e : FeedEntry}
    (ht : env.TEST_MODE = false) (hk : entryUniqueKey e ∈ acc.1) :
    processEntry env now acc e = acc := by
  unfold processEntry
  split_ifs <;> simp_all

theorem key_mem_processEntry (env : Env) (now : Int)
    (acc : List JStr × List FeedEntry) {e : FeedEntry}
    (ht : env.TEST_MODE = false) (hl : e.link ≠ statusPageDocumentRoot env)
    (hr : relevantTitle env e = true) :
    entryUniqueKey e ∈ (processEntry env now acc e).1 := by
  unfold processEntry
  split_ifs <;> simp_all

theorem processEntry_kept_key (env : Env) (now : Int)
    (acc : List JStr × List FeedEntry) (e : FeedEntry) {x : FeedEntry}
    (ht : env.TEST_MODE = false) (hx : x ∈ (processEntry env now acc e).2) :
    x ∈ acc.2 ∨ entryUniqueKey x ∈ (processEntry env now acc e).1 := by
  rcases processEntry_snd_cases env now acc e with hc | hc
  · rw [hc] at hx
    exact Or.inl hx
  · rw [hc.1] at hx
    rcases List.mem_append.mp hx with h1 | h1
    · exact Or.inl h1
    · have hxe : x = e := by simpa using h1
      subst hxe
      exact Or.inr (key_mem_processEntry env now acc ht hc.2.1 hc.2.2)

theorem mem_runFilter_fst_of_mem {env : Env} {now : Int} {k : JStr} :
    ∀ (feed : List FeedEntry) (acc : List JStr × List FeedEntry),
      k ∈ acc.1 → k ∈ (runFilter env now acc feed).1
  | [], acc, h => h
  | e :: rest, acc, h => by
    rw [runFilter]
    refine mem_runFilter_fst_of_mem rest _ ?_
    rcases processEntry_fst_cases env now acc e with hc | hc
    · rw [hc]; exact h
    · rw [hc.1]; exact List.mem_append_left _ h

theorem runFilter_fst_mem {env : Env} {now : Int} {k : JStr} :
    ∀ (feed : List FeedEntry) (acc : List JStr × List FeedEntry),
      k ∈ (runFilter env now acc feed).1 →
      k ∈ acc.1 ∨ ∃ e ∈ feed, k = entryUniqueKey e ∧
        e.link ≠ statusPageDocumentRoot env ∧ relevantTitle env e = true ∧
        env.TEST_MODE = false
  | [], acc, h => Or.inl h
  | e :: rest, acc, h => by
    rw [runFilter] at h
    rcases runFilter_fst_mem rest _ h with h1 | ⟨e2, he2, hk⟩
    · rcases processEntry_fst_cases env now acc e with hc | hc
      · rw [hc] at h1; exact Or.inl h1
      · rw [hc.1] at h1
        rcases List.mem_append.mp h1 with h2 | h2
        · exact Or.inl h2
        · refine Or.inr ⟨e, by simp, ?_, hc.2.2.2.1, hc.2.2.2.2, hc.2.2.1⟩
          simpa using h2
    · exact Or.inr ⟨e2, by simp [he2], hk⟩

theorem runFilter_snd_mem {env : Env} {now : Int} {x : FeedEntry} :
    ∀ (feed : List FeedEntry) (acc : List JStr × List FeedEntry),
      x ∈ (runFilter env now acc feed).2 →
      x ∈ acc.2 ∨ (x ∈ feed ∧ x.link ≠ statusPageDocumentRoot env ∧
        relevantTitle env x = true)
  | [], acc, h => Or.inl h
  | e :: rest, acc, h => by
    rw [runFilter] at h
    rcases runFilter_snd_mem rest _ h with h1 | ⟨hmem, hx⟩
    · rcases processEntry_snd_cases env now acc e with hc | hc
      · rw [hc] at h1; exact Or.inl h1
      · rw [hc.1] at h1
        rcases List.mem_append.mp h1 with h2 | h2
        · exact Or.inl h2
        · have hxe : x = e := by simpa using h2
          subst hxe
          exact Or.inr ⟨by simp, hc.2.1, hc.2.2⟩
    · exact Or.inr ⟨by simp [hmem], hx⟩

theorem runFilter_snd_key_mem {env : Env} {now : Int} {x : FeedEntry}
    (ht : env.TEST_MODE = false) :
    ∀ (feed : List FeedEntry) (acc : List JStr × List FeedEntry),
      x ∈ (runFilter env now acc feed).2 →
      x ∈ acc.2 ∨ entryUniqueKey x ∈ (runFilter env now acc feed).1
  | [], acc, h => Or.inl h
  | e :: rest, acc, h => by
    rw [runFilter] at h ⊢
    rcases runFilter_snd_key_mem ht rest _ h with h1 | h1
    · rcases processEntry_kept_key env now acc e ht h1 with h2 | h2
      · exact Or.inl h2
      · exact Or.inr (mem_runFilter_fst_of_mem rest _ h2)
    · exact Or.inr h1

theorem key_mem_runFilter {env : Env} {now : Int} {e : FeedEntry}
    (ht : env.TEST_MODE = false) (hl : e.link ≠ statusPageDocumentRoot env)
    (hr : relevantTitle env e = true) :
    ∀ (feed : List FeedEntry) (acc : List JStr × List FeedEntry),
      e ∈ feed → entryUniqueKey e ∈ (runFilter env now acc feed).1
  | [], acc, h => nomatch h
  | e2 :: rest, acc, h => by
    rw [runFilter]
    rcases List.mem_cons.mp h with h1 | h1
    · subst h1
      exact mem_runFilter_fst_of_mem rest _
        (key_mem_processEntry env now acc ht hl hr)
    · exact key_mem_runFilter ht hl hr rest _ h1

theorem runFilter_blocked {env : Env} {now : Int} {e : FeedEntry}
    (ht : env.TEST_MODE = false) :
    ∀ (feed : List FeedEntry) (acc : List JStr × List FeedEntry),
      entryUniqueKey e ∈ acc.1 → e ∉ acc.2 →
      e ∉ (runFilter env now acc feed).2
  | [], acc, hk, hn => hn
  | x :: rest, acc, hk, hn => by
    rw [runFilter]
    by_cases hxe : x = e
    · subst hxe
      rw [processEntry_seen env now acc ht hk]
      exact runFilter_blocked ht rest acc hk hn
    · refine runFilter_blocked ht rest _ ?_ ?_
      · rcases processEntry_fst_cases env now acc x with hc | hc
        · rw [hc]; exact hk
        · rw [hc.1]; exact List.mem_append_left _ hk
      · rcases processEntry_snd_cases env now acc x with hc | hc
        · rw [hc]; exact hn
        · rw [hc.1]
          intro hmem
          rcases List.mem_append.mp hmem with h2 | h2
          · exact hn h2
          · have h3 : e = x := by simpa using h2
            exact hxe h3.symm

theorem runFilter_noop {env : Env} {now : Int} (ht : env.TEST_MODE = false) :
    ∀ (feed : List FeedEntry) (acc : List JStr × List FeedEntry),
      (∀ e ∈ feed, e.link = statusPageDocumentRoot env ∨
        relevantTitle env e = false ∨ entryUniqueKey e ∈ acc.1) →
      runFilter env now acc feed = acc
  | [], acc, h => rfl
  | e :: rest, acc, h => by
    rw [runFilter]
    have hstep : processEntry env now acc e = acc := by
      rcases h e (by simp) with h1 | h1 | h1
      · exact processEntry_root env now acc h1
      · exact processEntry_irrelevant env now acc h1
      · exact processEntry_seen env now acc ht h1
    rw [hstep]
    exact runFilter_noop ht rest acc (fun x hx => h x (by simp [hx]))

theorem processEntry_fst_push (env : Env) (now : Int)
    (acc : List JStr × List FeedEntry) (e : FeedEntry) :
    (processEntry env now acc e).1 = acc.1 ∨
      ((processEntry env now acc e).1 = acc.1 ++ [entryUniqueKey e] ∧
        entryUniqueKey e ∉ acc.1) := by
  rcases processEntry_fst_cases env now acc e with h | h
  · exact Or.inl h
  · exact Or.inr ⟨h.1, h.2.1⟩

theorem count_runFilter_fst {env : Env} {now : Int} {k : JStr} :
    ∀ (feed : List FeedEntry) (acc : List JStr × List FeedEntry),
      (runFilter env now acc feed).1.count k = acc.1.count k ∨
        (acc.1.count k = 0 ∧ (runFilter env now acc feed).1.count k = 1)
  | [], acc => Or.inl rfl
  | e :: rest, acc => by
    rw [runFilter]
    rcases processEntry_fst_push env now acc e with hc | ⟨hc, hnk⟩
    · rcases count_runFilter_fst rest (processEntry env now acc e) with h1 | h1
      · rw [hc] at h1; exact Or.inl h1
      · rw [hc] at h1; exact Or.inr h1
    · by_cases hke : k = entryUniqueKey e
      · have h0 : acc.1.count k = 0 := by
          rw [hke]; exact List.count_eq_zero.mpr hnk
        have h1 : (processEntry env now acc e).1.count k = 1 := by
          rw [hc, List.count_append, h0, hke]
          simp
        rcases count_runFilter_fst rest (processEntry env now acc e) with h2 | h2
        · rw [h1] at h2; exact Or.inr ⟨h0, h2⟩
        · exact Or.inr ⟨h0, h2.2⟩
      · have heq : (processEntry env now acc e).1.count k = acc.1.count k := by
          rw [hc, List.count_append]
          simp [List.count_cons, hke]
        rcases count_runFilter_fst rest (processEntry env now acc e) with h2 | h2
        · rw [heq] at h2; exact Or.inl h2
        · rw [heq] at h2; exact Or.inr h2

theorem runFilter_fst_append {env : Env} {now : Int} :
    ∀ (feed : List FeedEntry) (acc : List JStr × List FeedEntry),
      ∃ ks, (runFilter env now acc feed).1 = acc.1 ++ ks
  | [], acc => ⟨[], by simp [runFilter]⟩
  | e :: rest, acc => by
    rw [runFilter]
    obtain ⟨ks, hks⟩ := runFilter_fst_append rest (processEntry env now acc e)
    rcases processEntry_fst_cases env now acc e with hc | hc
    · exact ⟨ks, by rw [hks, hc]⟩
    · exact ⟨[entryUniqueKey e] ++ ks, by rw [hks, hc.1, List.append_assoc]⟩

theorem runFilter_testMode {env : Env} {now : Int} (ht : env.TEST_MODE = true) :
    ∀ (feed : List FeedEntry) (acc : List JStr × List FeedEntry),
      runFilter env now acc feed =
        (acc.1, acc.2 ++ feed.filter (passesBasicFilters env))
  | [], acc => by simp [runFilter]
  | e :: rest, acc => by
    rw [runFilter, runFilter_testMode ht rest (processEntry env now acc e)]
    by_cases hl : e.link = statusPageDocumentRoot env
    · rw [processEntry_root env now acc hl]
      have : passesBasicFilters env e = false := by
        simp [passesBasicFilters, hl]
      simp [List.filter_cons, this]
    · cases hr : relevantTitle env e with
      | false =>
        rw [processEntry_irrelevant env now acc hr]
        have : passesBasicFilters env e = false := by
          simp [passesBasicFilters, hr]
        simp [List.filter_cons, this]
      | true =>
        have hstep : processEntry env now acc e = (acc.1, acc.2 ++ [e]) := by
          unfold processEntry
          split_ifs <;> simp_all
        have hp : passesBasicFilters env e = true := by
          simp [passesBasicFilters, hl, hr]
        rw [hstep]
        simp [List.filter_cons, hp]

theorem runFilter_snd_spec {env : Env} {now : Int}
    (ht : env.TEST_MODE = false) :
    ∀ (feed : List FeedEntry) (proc : List JStr) (kept : List FeedEntry),
      (runFilter env now (proc, kept) feed).2 =
        kept ++ notifiedSpecRec env now proc feed
  | [], proc, kept => by simp [runFilter, notifiedSpecRec]
  | e :: rest, proc, kept => by
    rw [runFilter, notifiedSpecRec]
    by_cases hl : e.link = statusPageDocumentRoot env
    · rw [processEntry_root env now (proc, kept) hl]
      rw [if_neg (by simp [hl])]
      exact runFilter_snd_spec ht rest proc kept
    · cases hr : relevantTitle env e with
      | false =>
        rw [processEntry_irrelevant env now (proc, kept) hr]
        rw [if_neg (by simp [hr])]
        exact runFilter_snd_spec ht rest proc kept
      | true =>
        by_cases hk : entryUniqueKey e ∈ proc
        · rw [processEntry_seen env now (proc, kept) ht hk]
          rw [if_neg (by simp [hk])]
          exact runFilter_snd_spec ht rest proc kept
        · rw [if_pos ⟨hl, rfl, hk⟩]
          by_cases hrec : now - 3600000 ≤ e.published
          · have hstep : processEntry env now (proc, kept) e =
                (proc ++ [entryUniqueKey e], kept ++ [e]) := by
              unfold processEntry
              split_ifs <;> simp_all
              omega
            rw [hstep, if_pos hrec,
              runFilter_snd_spec ht rest (proc ++ [entryUniqueKey e]) (kept ++ [e])]
            simp
          · have hstep : processEntry env now (proc, kept) e =
                (proc ++ [entryUniqueKey e], kept) := by
              unfold processEntry
              split_ifs <;> simp_all
              omega
            rw [hstep, if_neg hrec]
            exact runFilter_snd_spec ht rest (proc ++ [entryUniqueKey e]) kept

theorem runFilter_append {env : Env} {now : Int} :
    ∀ (l1 l2 : List FeedEntry) (acc : List JStr × List FeedEntry),
      runFilter env now acc (l1 ++ l2) =
        runFilter env now (runFilter env now acc l1) l2
  | [], l2, acc => rfl
  | x :: t, l2, acc => by
    rw [List.cons_append, runFilter, runFilter]
    exact runFilter_append t l2 _

theorem processEntry_shape (env : Env) (now : Int)
    (acc : List JStr × List FeedEntry) (e : FeedEntry)
    (ht : env.TEST_MODE = false) :
    processEntry env now acc e = acc ∨
      (processEntry env now acc e = (acc.1 ++ [entryUniqueKey e], acc.2) ∧
        entryUniqueKey e ∉ acc.1) ∨
      (processEntry env now acc e = (acc.1 ++ [entryUniqueKey e], acc.2 ++ [e]) ∧
        entryUniqueKey e ∉ acc.1) := by
  unfold processEntry
  split_ifs <;> simp_all

theorem runFilter_kept_nodup {env : Env} {now : Int}
    (ht : env.TEST_MODE = false) :
    ∀ (feed : List FeedEntry) (acc : List JStr × List FeedEntry),
      (acc.2.map entryUniqueKey).Nodup →
      (∀ x ∈ acc.2, entryUniqueKey x ∈ acc.1) →
      ((runFilter env now acc feed).2.map entryUniqueKey).Nodup
  | [], acc, hnd, hkeys => hnd
  | e :: rest, acc, hnd, hkeys => by
    rw [runFilter]
    rcases processEntry_shape env now acc e ht with hc | ⟨hc, hnk⟩ | ⟨hc, hnk⟩
    · rw [hc]
      exact runFilter_kept_nodup ht rest acc hnd hkeys
    · rw [hc]
      exact runFilter_kept_nodup ht rest _ hnd
        (fun x hx => List.mem_append_left _ (hkeys x hx))
    · rw [hc]
      refine runFilter_kept_nodup ht rest _ ?_ ?_
      · show ((acc.2 ++ [e]).map entryUniqueKey).Nodup
        rw [List.map_append]
        rw [List.nodup_append]
        refine ⟨hnd, by simp, ?_⟩
        intro a ha hb
        have hae : a = entryUniqueKey e := by simpa using hb
        obtain ⟨x, hx, hxa⟩ := List.mem_map.mp ha
        rw [hae] at hxa
        exact hnk (hxa ▸ hkeys x hx)
      · intro x hx
        rcases List.mem_append.mp hx with h1 | h1
        · exact List.mem_append_left _ (hkeys x h1)
        · have hxe : x = e := by simpa using h1
          subst hxe
          simp

theorem readProcessed_pieces (o : Option JStr) :
    ∀ k ∈ readProcessed o, ',' ∉ k := by
  cases o with
  | none => simp [readProcessed]
  | some s => exact jsSplit_pieces_no_sep ',' s

theorem writeProcessed_readProcessed (o : Option JStr) :
    writeProcessed (readProcessed o) = o := by
  cases o with
  | none => rfl
  | some s =>
    simp only [readProcessed, writeProcessed]
    rw [if_pos (List.length_pos.mpr (jsSplit_ne_nil ',' s)), jsJoin_jsSplit]

theorem readProcessed_writeProcessed {l : List JStr}
    (hfree : ∀ k ∈ l, ',' ∉ k) : readProcessed (writeProcessed l) = l := by
  cases l with
  | nil => rfl
  | cons x xs =>
    simp only [writeProcessed]
    rw [if_pos (by simp)]
    simp only [readProcessed]
    exact jsSplit_jsJoin (by simp) hfree

theorem run_ok_store (env : Env) (inp : RunInput)
    (h1 : inp.serviceOk = true) (h2 : inp.statusOk = true) :
    (run env inp).store = writeProcessed (newProcessedOf env inp) := by
  simp [run, h1, h2]

theorem run_ok_processedAfter (env : Env) (inp : RunInput)
    (h1 : inp.serviceOk = true) (h2 : inp.statusOk = true) :
    (run env inp).processedAfter = newProcessedOf env inp := by
  simp [run, h1, h2]

theorem run_ok_toProcess (env : Env) (inp : RunInput)
    (h1 : inp.serviceOk = true) (h2 : inp.statusOk = true) :
    (run env inp).toProcess = toProcessOf env inp := by
  simp [run, h1, h2]

theorem run_store_ne_some_nil {env : Env} {inp : RunInput}
    (h : inp.store ≠ some ([] : JStr)) :
    (run env inp).store ≠ some ([] : JStr) := by
  by_cases h1 : inp.serviceOk = false
  · simpa [run, h1] using h
  · by_cases h2 : inp.statusOk = false
    · simpa [run, h1, h2] using h
    · simp only [run, if_neg h1, if_neg h2]
      intro hcontra
      rcases hl : newProcessedOf env inp with _ | ⟨p, ps⟩
      · rw [hl] at hcontra
        simp [writeProcessed] at hcontra
      · rw [hl] at hcontra
        unfold writeProcessed at hcontra
        rw [if_pos (by simp : (p :: ps).length > 0)] at hcontra
        injection hcontra with hje
        rcases jsJoin_eq_nil hje with h3 | h3
        · exact absurd h3 (by simp)
        · have hp : p = ([] : JStr) := by
            rw [List.cons.injEq] at h3
            exact h3.1
          have hps : ps = ([] : List JStr) := by
            rw [List.cons.injEq] at h3
            exact h3.2 ▸ rfl
          obtain ⟨ks, hks⟩ :=
            runFilter_fst_append inp.feed (readProcessed inp.store, [])
          have hnp : newProcessedOf env inp = readProcessed inp.store ++ ks := hks
          rw [hl, hp, hps] at hnp
          cases hst : inp.store with
          | none =>
            have hr : readProcessed inp.store = [] := by rw [hst]; rfl
            rw [hr, List.nil_append] at hnp
            have hmem : ([] : JStr) ∈ newProcessedOf env inp := by
              rw [hl, hp]
              simp
            rcases runFilter_fst_mem inp.feed _ hmem with hm | ⟨e, _, hk, _⟩
            · rw [show (readProcessed inp.store, ([] : List FeedEntry)).1 =
                readProcessed inp.store from rfl, hr] at hm
              exact absurd hm (by simp)
            · exact entryUniqueKey_ne_nil e hk.symm
          | some s =>
            have hr : readProcessed inp.store = jsSplit ',' s := by rw [hst]; rfl
            rw [hr] at hnp
            rcases hsp : jsSplit ',' s with _ | ⟨p2, ps2⟩
            · exact absurd hsp (jsSplit_ne_nil ',' s)
            · rw [hsp, List.cons_append, List.cons.injEq] at hnp
              have hs2 : jsSplit ',' s = [[]] := by
                rw [hsp, ← hnp.1]
                have : ps2 = [] := (List.append_eq_nil.mp hnp.2.symm).1
                rw [this]
              have hsnil : s = [] := by
                have hj := jsJoin_jsSplit ',' s
                rw [hs2] at hj
                exact hj.symm
              rw [hst, hsnil] at h
              exact h rfl

theorem reachable_store_ne_some_nil {s : Option JStr}
    (h : ReachableStore s) : s ≠ some ([] : JStr) := by
  induction h with
  | init => simp
  | step env inp hprev ih => exact run_store_ne_some_nil ih

theorem runFilter_cons (env : Env) (now : Int)
    (acc : List JStr × List FeedEntry) (e : FeedEntry)
    (rest : List FeedEntry) :
    runFilter env now acc (e :: rest) =
      runFilter env now (processEntry env now acc e) rest := rfl

theorem runFilter_fst_nodup {env : Env} {now : Int} :
    ∀ (feed : List FeedEntry) (acc : List JStr × List FeedEntry),
      acc.1.Nodup → (runFilter env now acc feed).1.Nodup
  | [], acc, h => h
  | e :: rest, acc, h => by
    rw [runFilter]
    rcases processEntry_fst_push env now acc e with hc | ⟨hc, hnk⟩
    · refine runFilter_fst_nodup rest _ ?_
      rw [hc]
      exact h
    · refine runFilter_fst_nodup rest _ ?_
      rw [hc, List.nodup_append]
      refine ⟨h, by simp, ?_⟩
      intro a ha hb
      have hae : a = entryUniqueKey e := by simpa using hb
      exact hnk (hae ▸ ha)

/-- C8: if either HEAD availability probe fails, the run terminates
without error: the dedup store is neither read nor written (and keeps its
value), the feed is not fetched, no message is composed or posted, and
the only effect is one log line. -/
theorem c8_probe_failure_aborts (env : Env) (inp : RunInput)
    (h : inp.serviceOk = false ∨ inp.statusOk = false) :
    (run env inp).store = inp.store ∧ (run env inp).kvRead = false ∧
    (run env inp).kvWritten = false ∧ (run env inp).feedFetched = false ∧
    (run env inp).composed = [] ∧ (run env inp).posted = [] ∧
    ((run env inp).logs = [env.SERVICE_NAME ++ js "に接続できませんでした。"] ∨
      (run env inp).logs = [js "ステータスページに接続できませんでした。"]) := by
  rcases h with h | h
  · simp [run, h]
  · by_cases hs : inp.serviceOk = false
    · simp [run, hs]
    · simp [run, hs, h]

/-- Closed witness for `c8_probe_failure_aborts` at a concrete input. -/
theorem c8_probe_failure_aborts_witness :
    (inpFail.serviceOk = false ∨ inpFail.statusOk = false) ∧
    ((run envA inpFail).store = inpFail.store ∧
      (run envA inpFail).kvRead = false ∧
      (run envA inpFail).kvWritten = false ∧
      (run envA inpFail).feedFetched = false ∧
      (run envA inpFail).composed = [] ∧ (run envA inpFail).posted = [] ∧
      ((run envA inpFail).logs =
          [envA.SERVICE_NAME ++ js "に接続できませんでした。"] ∨
        (run envA inpFail).logs =
          [js "ステータスページに接続できませんでした。"])) :=
  ⟨Or.inl rfl, c8_probe_failure_aborts envA inpFail (Or.inl rfl)⟩

/-- C7 counterexample: a dedup key containing a comma does not survive
the persist-then-reread round trip, refuting the claim for arbitrary
keys. -/
theorem c7_roundtrip_counterexample :
    readProcessed (writeProcessed [js "a,b"]) ≠ [js "a,b"] := by decide

/-- C7 amended: provided no key contains a comma, persisting the list
(comma-join when non-empty, delete when empty) and re-reading it (split
on comma if present, else the empty list) reconstructs exactly the
original keys in order, and the empty list is persisted as an absent
key. -/
theorem c7_roundtrip (l : List JStr) (hfree : ∀ k ∈ l, ',' ∉ k) :
    readProcessed (writeProcessed l) = l ∧
    (l = [] → writeProcessed l = none) := by
  refine ⟨readProcessed_writeProcessed hfree, ?_⟩
  intro h
  subst h
  rfl

/-- Closed witness for `c7_roundtrip` on a two-key list. -/
theorem c7_roundtrip_witness :
    (∀ k ∈ [js "a-1", js "b-2"], ',' ∉ k) ∧
    (readProcessed (writeProcessed [js "a-1", js "b-2"]) =
        [js "a-1", js "b-2"] ∧
      ([js "a-1", js "b-2"] = ([] : List JStr) →
        writeProcessed [js "a-1", js "b-2"] = none)) :=
  ⟨by decide, c7_roundtrip [js "a-1", js "b-2"] (by decide)⟩

/-- C3: after every completed run from a reachable store state, the key
holds the comma-joined processed list when that list is non-empty, is
absent when the list is empty, and its value is never the empty
string. -/
theorem c3_store_writeback (env : Env) (inp : RunInput)
    (hreach : ReachableStore inp.store)
    (h1 : inp.serviceOk = true) (h2 : inp.statusOk = true) :
    ((run env inp).processedAfter ≠ [] →
      (run env inp).store = some (jsJoin ',' (run env inp).processedAfter)) ∧
    ((run env inp).processedAfter = [] → (run env inp).store = none) ∧
    ∀ v, (run env inp).store = some v → v ≠ [] := by
  have hrun := @run_store_ne_some_nil env inp
    (reachable_store_ne_some_nil hreach)
  refine ⟨?_, ?_, ?_⟩
  · intro hne
    rw [run_ok_store env inp h1 h2, run_ok_processedAfter env inp h1 h2]
    rw [run_ok_processedAfter env inp h1 h2] at hne
    unfold writeProcessed
    rw [if_pos (List.length_pos.mpr hne)]
  · intro hnil
    rw [run_ok_store env inp h1 h2]
    rw [run_ok_processedAfter env inp h1 h2] at hnil
    rw [hnil]
    rfl
  · intro v hv hveq
    exact hrun (by rw [hv, hveq])

/-- Closed witness for `c3_store_writeback` at the initial store state. -/
theorem c3_store_writeback_witness :
    ReachableStore inpNone.store ∧ inpNone.serviceOk = true ∧
    inpNone.statusOk = true ∧
    (((run envA inpNone).processedAfter ≠ [] →
        (run envA inpNone).store =
          some (jsJoin ',' (run envA inpNone).processedAfter)) ∧
      ((run envA inpNone).processedAfter = [] →
        (run envA inpNone).store = none) ∧
      ∀ v, (run envA inpNone).store = some v → v ≠ []) :=
  ⟨ReachableStore.init, rfl, rfl,
    c3_store_writeback envA inpNone ReachableStore.init rfl rfl⟩

/-- C5: an entry whose link equals the status page document root is never
notified, and every key of the final processed list either was read from
the store or is the key of some feed entry whose link is not the root,
for every store state and feed. -/
theorem c5_root_link_excluded (env : Env) (inp : RunInput) (e : FeedEntry)
    (h : e.link = statusPageDocumentRoot env) :
    e ∉ (run env inp).toProcess ∧
    ∀ k ∈ (run env inp).processedAfter, k ∈ readProcessed inp.store ∨
      ∃ e2 ∈ inp.feed, k = entryUniqueKey e2 ∧
        e2.link ≠ statusPageDocumentRoot env := by
  by_cases h1 : inp.serviceOk = false
  · simp [run, h1]
  · by_cases h2 : inp.statusOk = false
    · simp [run, h1, h2]
    · constructor
      · intro hmem
        rw [run_ok_toProcess env inp (by simpa using h1) (by simpa using h2)]
          at hmem
        rcases runFilter_snd_mem inp.feed _ hmem with hc | ⟨_, hl, _⟩
        · exact absurd hc (by simp)
        · exact hl h
      · intro k hk
        rw [run_ok_processedAfter env inp (by simpa using h1)
          (by simpa using h2)] at hk
        rcases runFilter_fst_mem inp.feed _ hk with hc | ⟨e2, hmem, hkey, hl, _⟩
        · exact Or.inl hc
        · exact Or.inr ⟨e2, hmem, hkey, hl⟩

/-- Closed witness for `c5_root_link_excluded`. -/
theorem c5_root_link_excluded_witness :
    entryRoot.link = statusPageDocumentRoot envA ∧
    (entryRoot ∉ (run envA inpC5).toProcess ∧
      ∀ k ∈ (run envA inpC5).processedAfter,
        k ∈ readProcessed inpC5.store ∨
        ∃ e2 ∈ inpC5.feed, k = entryUniqueKey e2 ∧
          e2.link ≠ statusPageDocumentRoot envA) :=
  ⟨by decide, c5_root_link_excluded envA inpC5 entryRoot (by decide)⟩

/-- C10: with TEST_MODE enabled the already-seen and recency exclusions
are skipped, so the entries to process are exactly those passing the
sentinel-link and title-relevance checks; the store's content is left
unchanged, nothing is posted, and the composed messages are returned. -/
theorem c10_test_mode (env : Env) (inp : RunInput)
    (ht : env.TEST_MODE = true)
    (h1 : inp.serviceOk = true) (h2 : inp.statusOk = true) :
    (run env inp).toProcess = inp.feed.filter (passesBasicFilters env) ∧
    (run env inp).store = inp.store ∧
    (run env inp).processedAfter = readProcessed inp.store ∧
    (run env inp).posted = [] ∧
    (run env inp).returned =
      some ((run env inp).toProcess.map fun e =>
        composeMessage e (inp.pages e.link)) := by
  have hf := @runFilter_testMode env inp.now ht inp.feed
    (readProcessed inp.store, [])
  have htp : toProcessOf env inp = inp.feed.filter (passesBasicFilters env) := by
    unfold toProcessOf
    rw [hf]
    rfl
  have hnp : newProcessedOf env inp = readProcessed inp.store := by
    unfold newProcessedOf
    rw [hf]
  refine ⟨?_, ?_, ?_, ?_, ?_⟩
  · rw [run_ok_toProcess env inp h1 h2, htp]
  · rw [run_ok_store env inp h1 h2, hnp, writeProcessed_readProcessed]
  · rw [run_ok_processedAfter env inp h1 h2, hnp]
  · simp [run, h1, h2, ht]
  · rw [run_ok_toProcess env inp h1 h2]
    simp [run, h1, h2, ht, messagesOf]

/-- Closed witness for `c10_test_mode`: the single entry is both already
in the store and two hours old, yet is still included. -/
theorem c10_test_mode_witness :
    envT.TEST_MODE = true ∧ inpC10.serviceOk = true ∧
    inpC10.statusOk = true ∧
    ((run envT inpC10).toProcess =
        inpC10.feed.filter (passesBasicFilters envT) ∧
      (run envT inpC10).store = inpC10.store ∧
      (run envT inpC10).processedAfter = readProcessed inpC10.store ∧
      (run envT inpC10).posted = [] ∧
      (run envT inpC10).returned =
        some ((run envT inpC10).toProcess.map fun e =>
          composeMessage e (inpC10.pages e.link))) :=
  ⟨rfl, rfl, rfl, c10_test_mode envT inpC10 rfl rfl rfl⟩

/-- C1 counterexample: the second of two distinct entries sharing one
dedup key satisfies every condition of the claim relative to the STORED
processed set (non-root link, relevant title, key absent from the stored
set, recent), yet it is not notified, because the first entry's key was
appended to the same in-memory list earlier in the same run. -/
theorem c1_counterexample :
    (entry42b.link ≠ statusPageDocumentRoot envA ∧
      relevantTitle envA entry42b = true ∧
      entryUniqueKey entry42b ∉ readProcessed inpC1.store ∧
      inpC1.now - 3600000 ≤ entry42b.published) ∧
    entry42b ∉ (run envA inpC1).toProcess := by decide

/-- C1 amended: with TEST_MODE disabled, the notified entries are exactly
those selected by the rule of `notifiedSpecRec`: link is not the root,
title is relevant, the key is absent from the processed list as
accumulated when the entry is examined, and the entry is at most one
hour old. -/
theorem c1_notification_rule (env : Env) (inp : RunInput)
    (ht : env.TEST_MODE = false)
    (h1 : inp.serviceOk = true) (h2 : inp.statusOk = true) :
    (run env inp).toProcess =
      notifiedSpecRec env inp.now (readProcessed inp.store) inp.feed := by
  rw [run_ok_toProcess env inp h1 h2]
  unfold toProcessOf
  rw [runFilter_snd_spec ht inp.feed (readProcessed inp.store) []]
  rfl

/-- Closed witness for `c1_notification_rule`. -/
theorem c1_notification_rule_witness :
    (envA.TEST_MODE = false ∧ inpC1.serviceOk = true ∧
      inpC1.statusOk = true) ∧
    (run envA inpC1).toProcess =
      notifiedSpecRec envA inpC1.now (readProcessed inpC1.store) inpC1.feed :=
  ⟨⟨rfl, rfl, rfl⟩, c1_notification_rule envA inpC1 rfl rfl rfl⟩

/-- C2 counterexample: with a comma inside the dedup key, a second run
over the identical feed notifies the already-notified entry again. -/
theorem c2_counterexample :
    entryComma ∈ (run envA inpC2a).toProcess ∧
    entryComma ∈ (run envA inpC2b).toProcess := by decide

/-- C2 amended: provided no feed entry's dedup key contains a comma, a
second non-test run reading back the first run's store and seeing the
same feed writes the same store back and notifies nothing; and the key
of every entry passing the link and title rules, absent from the first
run's stored set, occurs exactly once in the persisted list after either
run. -/
theorem c2_second_run_idempotent (env : Env) (inp inp2 : RunInput)
    (ht : env.TEST_MODE = false)
    (h1 : inp.serviceOk = true) (h2 : inp.statusOk = true)
    (h3 : inp2.serviceOk = true) (h4 : inp2.statusOk = true)
    (hstore : inp2.store = (run env inp).store)
    (hfeed : inp2.feed = inp.feed)
    (hfree : ∀ e ∈ inp.feed, ',' ∉ entryUniqueKey e) :
    (run env inp2).store = (run env inp).store ∧
    (run env inp2).toProcess = [] ∧
    ∀ e ∈ inp.feed, e.link ≠ statusPageDocumentRoot env →
      relevantTitle env e = true →
      entryUniqueKey e ∈ (run env inp).processedAfter ∧
      ((readProcessed inp.store).count (entryUniqueKey e) = 0 →
        (run env inp).processedAfter.count (entryUniqueKey e) = 1 ∧
        (run env inp2).processedAfter.count (entryUniqueKey e) = 1) := by
  have hN1 : (run env inp).processedAfter = newProcessedOf env inp :=
    run_ok_processedAfter env inp h1 h2
  have hS1 : (run env inp).store = writeProcessed (newProcessedOf env inp) :=
    run_ok_store env inp h1 h2
  have hfreeN1 : ∀ k ∈ newProcessedOf env inp, ',' ∉ k := by
    intro k hk
    rcases runFilter_fst_mem inp.feed _ hk with hc | ⟨e, he, hkey, _⟩
    · exact readProcessed_pieces inp.store k hc
    · exact hkey ▸ hfree e he
  have hread2 : readProcessed inp2.store = newProcessedOf env inp := by
    rw [hstore, hS1, readProcessed_writeProcessed hfreeN1]
  have hcond : ∀ e ∈ inp2.feed, e.link = statusPageDocumentRoot env ∨
      relevantTitle env e = false ∨
      entryUniqueKey e ∈ readProcessed inp2.store := by
    intro e he
    rw [hfeed] at he
    by_cases hl : e.link = statusPageDocumentRoot env
    · exact Or.inl hl
    · cases hr : relevantTitle env e with
      | false => exact Or.inr (Or.inl rfl)
      | true =>
        refine Or.inr (Or.inr ?_)
        rw [hread2]
        exact key_mem_runFilter ht hl hr inp.feed _ he
  have hnoop : runFilter env inp2.now (readProcessed inp2.store, []) inp2.feed =
      (readProcessed inp2.store, []) :=
    runFilter_noop ht inp2.feed _ hcond
  have hN2 : newProcessedOf env inp2 = newProcessedOf env inp := by
    unfold newProcessedOf
    rw [hnoop]
    exact hread2
  have hT2 : toProcessOf env inp2 = [] := by
    unfold toProcessOf
    rw [hnoop]
  refine ⟨?_, ?_, ?_⟩
  · rw [run_ok_store env inp2 h3 h4, hS1, hN2]
  · rw [run_ok_toProcess env inp2 h3 h4, hT2]
  · intro e he hl hr
    have hkey : entryUniqueKey e ∈ newProcessedOf env inp :=
      key_mem_runFilter ht hl hr inp.feed _ he
    refine ⟨by rw [hN1]; exact hkey, ?_⟩
    intro h0
    have hcount : (newProcessedOf env inp).count (entryUniqueKey e) = 1 := by
      rcases @count_runFilter_fst env inp.now (entryUniqueKey e) inp.feed
        (readProcessed inp.store, []) with hc | hc
      · exfalso
        have hc2 : (newProcessedOf env inp).count (entryUniqueKey e) =
            (readProcessed inp.store).count (entryUniqueKey e) := hc
        have h00 : (newProcessedOf env inp).count (entryUniqueKey e) = 0 :=
          hc2.trans h0
        exact List.count_eq_zero.mp h00 hkey
      · exact hc.2
    constructor
    · rw [hN1]
      exact hcount
    · rw [run_ok_processedAfter env inp2 h3 h4, hN2]
      exact hcount

/-- Closed witness for `c2_second_run_idempotent`. -/
theorem c2_second_run_idempotent_witness :
    (envA.TEST_MODE = false ∧ inpC2w.serviceOk = true ∧
      inpC2w.statusOk = true ∧ inpC2w2.serviceOk = true ∧
      inpC2w2.statusOk = true ∧ inpC2w2.store = (run envA inpC2w).store ∧
      inpC2w2.feed = inpC2w.feed ∧
      ∀ e ∈ inpC2w.feed, ',' ∉ entryUniqueKey e) ∧
    ((run envA inpC2w2).store = (run envA inpC2w).store ∧
      (run envA inpC2w2).toProcess = [] ∧
      ∀ e ∈ inpC2w.feed, e.link ≠ statusPageDocumentRoot envA →
        relevantTitle envA e = true →
        entryUniqueKey e ∈ (run envA inpC2w).processedAfter ∧
        ((readProcessed inpC2w.store).count (entryUniqueKey e) = 0 →
          (run envA inpC2w).processedAfter.count (entryUniqueKey e) = 1 ∧
          (run envA inpC2w2).processedAfter.count (entryUniqueKey e) = 1)) :=
  ⟨⟨rfl, rfl, rfl, rfl, rfl, rfl, rfl, by decide⟩,
    c2_second_run_idempotent envA inpC2w inpC2w2 rfl rfl rfl rfl rfl rfl rfl
      (by decide)⟩

/-- C6: with TEST_MODE disabled, an entry passing the sentinel-link,
title-relevance and already-seen checks whose timestamp is older than
one hour before `now` still has its key appended to the persisted list,
while the entry itself is not notified. -/
theorem c6_old_entry_marked_not_notified (env : Env) (inp : RunInput)
    (pre post : List FeedEntry) (e : FeedEntry)
    (ht : env.TEST_MODE = false)
    (h1 : inp.serviceOk = true) (h2 : inp.statusOk = true)
    (hfeed : inp.feed = pre ++ e :: post)
    (hl : e.link ≠ statusPageDocumentRoot env)
    (hr : relevantTitle env e = true)
    (hseen : entryUniqueKey e ∉
      (runFilter env inp.now (readProcessed inp.store, []) pre).1)
    (hold : e.published < inp.now - 3600000) :
    entryUniqueKey e ∈ (run env inp).processedAfter ∧
    (run env inp).store = some (jsJoin ',' (run env inp).processedAfter) ∧
    e ∉ (run env inp).toProcess := by
  have hstep : processEntry env inp.now
      (runFilter env inp.now (readProcessed inp.store, []) pre) e =
      ((runFilter env inp.now (readProcessed inp.store, []) pre).1 ++
        [entryUniqueKey e],
        (runFilter env inp.now (readProcessed inp.store, []) pre).2) := by
    unfold processEntry
    split_ifs <;> simp_all
  have hsplit : runFilter env inp.now (readProcessed inp.store, []) inp.feed =
      runFilter env inp.now
        ((runFilter env inp.now (readProcessed inp.store, []) pre).1 ++
          [entryUniqueKey e],
          (runFilter env inp.now (readProcessed inp.store, []) pre).2) post := by
    rw [hfeed, runFilter_append, runFilter_cons, hstep]
  have hkeymem : entryUniqueKey e ∈
      (runFilter env inp.now (readProcessed inp.store, []) inp.feed).1 := by
    rw [hsplit]
    exact mem_runFilter_fst_of_mem post _ (by simp)
  have hnot : e ∉
      (runFilter env inp.now (readProcessed inp.store, []) inp.feed).2 := by
    rw [hsplit]
    refine runFilter_blocked ht post _ (by simp) ?_
    intro hmem
    rcases runFilter_snd_key_mem ht pre (readProcessed inp.store, []) hmem
      with hc | hc
    · exact absurd hc (by simp)
    · exact hseen hc
  refine ⟨?_, ?_, ?_⟩
  · rw [run_ok_processedAfter env inp h1 h2]
    exact hkeymem
  · have hkeymem2 : entryUniqueKey e ∈ newProcessedOf env inp := hkeymem
    rw [run_ok_store env inp h1 h2, run_ok_processedAfter env inp h1 h2]
    unfold writeProcessed
    rw [if_pos (List.length_pos.mpr (List.ne_nil_of_mem hkeymem2))]
  · rw [run_ok_toProcess env inp h1 h2]
    exact hnot

/-- Closed witness for `c6_old_entry_marked_not_notified`: a relevant
entry published two hours before the clock value. -/
theorem c6_old_entry_witness :
    (envA.TEST_MODE = false ∧ inpC6.serviceOk = true ∧
      inpC6.statusOk = true ∧ inpC6.feed = [] ++ entryOld :: [] ∧
      entryOld.link ≠ statusPageDocumentRoot envA ∧
      relevantTitle envA entryOld = true ∧
      entryUniqueKey entryOld ∉
        (runFilter envA inpC6.now (readProcessed inpC6.store, []) []).1 ∧
      entryOld.published < inpC6.now - 3600000) ∧
    (entryUniqueKey entryOld ∈ (run envA inpC6).processedAfter ∧
      (run envA inpC6).store =
        some (jsJoin ',' (run envA inpC6).processedAfter) ∧
      entryOld ∉ (run envA inpC6).toProcess) :=
  ⟨⟨rfl, rfl, rfl, rfl, by decide, by decide, by decide, by decide⟩,
    c6_old_entry_marked_not_notified envA inpC6 [] [] entryOld rfl rfl rfl rfl
      (by decide) (by decide) (by decide) (by decide)⟩

/-- C9: with TEST_MODE disabled, the aliasing of the in-progress list
with the read list makes within-run dedup effective: each key's
multiplicity in the final list is its stored multiplicity, or one if it
was absent; a duplicate-free stored list stays duplicate-free; and no
two notified entries share a dedup key. -/
theorem c9_within_run_dedup (env : Env) (inp : RunInput)
    (ht : env.TEST_MODE = false)
    (h1 : inp.serviceOk = true) (h2 : inp.statusOk = true) :
    (∀ k : JStr, (run env inp).processedAfter.count k =
        (readProcessed inp.store).count k ∨
      ((readProcessed inp.store).count k = 0 ∧
        (run env inp).processedAfter.count k = 1)) ∧
    ((readProcessed inp.store).Nodup → (run env inp).processedAfter.Nodup) ∧
    ((run env inp).toProcess.map entryUniqueKey).Nodup := by
  rw [run_ok_processedAfter env inp h1 h2, run_ok_toProcess env inp h1 h2]
  refine ⟨?_, ?_, ?_⟩
  · intro k
    exact @count_runFilter_fst env inp.now k inp.feed
      (readProcessed inp.store, [])
  · intro hnd
    exact runFilter_fst_nodup inp.feed (readProcessed inp.store, []) hnd
  · exact runFilter_kept_nodup ht inp.feed (readProcessed inp.store, [])
      (by simp) (by simp)

/-- Closed witness for `c9_within_run_dedup`: a feed holding two distinct
entries with the same dedup key. -/
theorem c9_within_run_dedup_witness :
    (envA.TEST_MODE = false ∧ inpC9.serviceOk = true ∧
      inpC9.statusOk = true) ∧
    ((∀ k : JStr, (run envA inpC9).processedAfter.count k =
        (readProcessed inpC9.store).count k ∨
      ((readProcessed inpC9.store).count k = 0 ∧
        (run envA inpC9).processedAfter.count k = 1)) ∧
    ((readProcessed inpC9.store).Nodup →
      (run envA inpC9).processedAfter.Nodup) ∧
    ((run envA inpC9).toProcess.map entryUniqueKey).Nodup) :=
  ⟨⟨rfl, rfl, rfl⟩, c9_within_run_dedup envA inpC9 rfl rfl rfl⟩

/-- C4 counterexample: a notified entry whose detail page's first marker
text is Operational produces a message whose label is the literal string
undefined (the switch has no default branch), which matches none of the
three claimed labels. -/
theorem c4_counterexample :
    (run envA inpC4).composed =
      [messageTemplate (js "undefined") entry42.title (js "desc")
        entry42.link] ∧
    ∀ label ∈ [js "お知らせ", js "障害情報", js "メンテナンス情報"],
      messageTemplate (js "undefined") entry42.title (js "desc")
          entry42.link ≠
        messageTemplate label entry42.title (js "desc") entry42.link := by
  decide

/-- C4 amended: every composed message follows the four-line template
with the label interpolated from the classification of the first marker
element; the label is NOTICE when the marker is absent or its text is
empty, INCIDENT for Downtime or Degraded, MAINTENANCE for Maintenance,
and for any other marker text the interpolated label is the string
undefined. -/
theorem c4_message_format (env : Env) (inp : RunInput) :
    ((run env inp).composed =
      (run env inp).toProcess.map fun e => composeMessage e (inp.pages e.link)) ∧
    ∀ (e : FeedEntry) (p : DetailPage),
      composeMessage e p =
        messageTemplate (jsInterp (entryTypeJp (markerText p))) e.title
          (descriptionOf p) e.link ∧
      ((markerText p = none ∨ markerText p = some []) →
        entryTypeJp (markerText p) = some (js "お知らせ")) ∧
      ((markerText p = some (js "Downtime") ∨
          markerText p = some (js "Degraded")) →
        entryTypeJp (markerText p) = some (js "障害情報")) ∧
      (markerText p = some (js "Maintenance") →
        entryTypeJp (markerText p) = some (js "メンテナンス情報")) := by
  constructor
  · by_cases h1 : inp.serviceOk = false
    · simp [run, h1]
    · by_cases h2 : inp.statusOk = false
      · simp [run, h1, h2]
      · simp [run, h1, h2, messagesOf]
  · intro e p
    refine ⟨rfl, ?_, ?_, ?_⟩
    · rintro (h | h) <;> rw [h] <;> decide
    · rintro (h | h) <;> rw [h] <;> decide
    · intro h
      rw [h]
      decide

/-- Closed witness for `c4_message_format` on the Downtime marker. -/
theorem c4_message_format_witness :
    (markerText pageDowntime = some (js "Downtime") ∨
      markerText pageDowntime = some (js "Degraded")) ∧
    entryTypeJp (markerText pageDowntime) = some (js "障害情報") :=
  ⟨Or.inl (by decide),
    ((c4_message_format envA inpC4).2 entry42 pageDowntime).2.2.1
      (Or.inl (by decide))⟩

end MicropenBot
